import Mathlib

/-!
Shallow embedding of the background-removal core of the repository
(the service file `src/services/apiService.js` and the utility file
`src/utils/imageProecssing.js`, kept here with their own function names).

A pixel buffer is the flat RGBA byte sequence of an `ImageData`, modelled as
`List ℕ` (each 4 consecutive entries are one pixel: R, G, B, A), passed around
together with explicit `width` / `height` arguments exactly as the source does.

JavaScript numeric expressions are embedded exactly:

* `Math.round(p / q)` on nonnegative values is `jsRound p q = (2*p + q) / (2*q)`
  in floor division, since `Math.round x = floor (x + 1/2)`.
* a comparison of `Math.sqrt s` against a nonnegative bound `t` is encoded by
  squaring (`sqrt s < t ↔ s < t^2`, `sqrt s ≤ t ↔ s ≤ t^2`), and the exact
  rational average `sum / count` is carried as the integer pair
  `(sum, count)`, so `sqrt (Σ (c - sum/count)^2) < 45` becomes
  `Σ (count*c - sum)^2 < 45^2 * count^2`.  These encodings are exact for the
  values the source computes (IEEE doubles are exact on these integers, and
  `Math.sqrt` is correctly rounded with error far below the decision margin).
-/

namespace BgRemover

/-- `Math.round (p / q)` for nonnegative integers, `q > 0`: `floor (p/q + 1/2)`. -/
def jsRound (p q : ℕ) : ℕ := (2 * p + q) / (2 * q)

/-- `Math.round (Math.sqrt n)` for a natural `n`:
`floor (sqrt n + 1/2) = (floor (2 * sqrt n) + 1) / 2 = (Nat.sqrt (4*n) + 1) / 2`. -/
def jsRoundSqrt (n : ℕ) : ℕ := (Nat.sqrt (4 * n) + 1) / 2

/-! Constants of the utility file. -/

/-- `MAX_PROCESSING_DIMENSION_SIDE` of the utility file. -/
def MAX_PROCESSING_DIMENSION_SIDE : ℕ := 4000

/-- `MAX_FILE_SIZE_BYTES` of the utility file (15MB). -/
def MAX_FILE_SIZE_BYTES : ℕ := 15 * 1024 * 1024

/-- `VALID_IMAGE_TYPES` of the utility file. -/
def VALID_IMAGE_TYPES : List String := ["image/jpeg", "image/png", "image/webp", "image/jpg"]

/-- The metadata of a candidate `File` object: declared MIME type, byte length,
and (for decoded images) intrinsic pixel dimensions.  The validators receive
the whole object; the dimension fields let us state that they never look at
them. -/
structure JSFile where
  type : String
  size : ℕ
  width : ℕ
  height : ℕ
  deriving DecidableEq

/-- Error kinds raised by the two validators (the source throws `Error`s with
messages; the constructor identifies which `throw` fired). -/
inductive ValidationError where
  | empty
  | invalidType (declared : String)
  | fileTooLarge (size : ℕ)
  deriving DecidableEq

/-- `validateImageFile(file, {maxFileSize, allowedTypes})` of the utility file.
`none` models an absent file (`!file`); the `instanceof File` branch cannot
fire in this model, where every present candidate is a `JSFile`. -/
def validateImageFile (file : Option JSFile) (maxFileSize : ℕ) (allowedTypes : List String) :
    Except ValidationError Bool :=
  match file with
  | none => .error .empty
  | some f =>
    if f.type ∉ allowedTypes then .error (.invalidType f.type)
    else if maxFileSize < f.size then .error (.fileTooLarge f.size)
    else .ok true

/-- `validateImage(file)` of the service file: fixed allowed-type list and a
fixed 20MB cap. -/
def validateImage (file : Option JSFile) : Except ValidationError Bool :=
  match file with
  | none => .error .empty
  | some f =>
    if f.type ∉ ["image/jpeg", "image/png", "image/webp", "image/jpg"] then
      .error (.invalidType f.type)
    else if 20 * 1024 * 1024 < f.size then .error (.fileTooLarge f.size)
    else .ok true

/-- The resize-decision fragment of `ensureProcessableImage` (step 3 of the
utility file): from the original dimensions and `targetMaxSide`, the new
dimensions and the `wasResized` flag.  The source computes the scaled sides
with `Math.round` and then clamps both with `Math.max(1, ·)`. -/
def computeResizeDims (originalWidth originalHeight targetMaxSide : ℕ) : ℕ × ℕ × Bool :=
  if targetMaxSide < originalWidth ∨ targetMaxSide < originalHeight then
    if originalHeight < originalWidth then
      (max 1 targetMaxSide, max 1 (jsRound (originalHeight * targetMaxSide) originalWidth), true)
    else
      (max 1 (jsRound (originalWidth * targetMaxSide) originalHeight), max 1 targetMaxSide, true)
  else (originalWidth, originalHeight, false)

/-! Pixel-manipulation utilities. -/

/-- An RGB colour with natural-number channels (as produced by
`sampleAverageColor`). -/
structure RGBNat where
  r : ℕ
  g : ℕ
  b : ℕ
  deriving DecidableEq

/-- An RGB colour with integer channels (target argument of
`manipulateAlphaByColorMatch`). -/
structure RGBInt where
  r : ℤ
  g : ℤ
  b : ℤ
  deriving DecidableEq

/-- The square of `calculateRgbDistance` (the source takes `Math.sqrt` of this
value; comparisons against it are encoded by squaring the bound). -/
def calculateRgbDistanceSq (c1 c2 : RGBInt) : ℤ :=
  (c1.r - c2.r) ^ 2 + (c1.g - c2.g) ^ 2 + (c1.b - c2.b) ^ 2

/-- Byte index of sample point `p` in the flat data array, as computed in
`sampleAverageColor`: `(currentY * width + currentX) * 4` with
`currentX = Math.floor x`, `currentY = Math.floor y` (the coordinates are
already integers here). -/
def samplePtIdx (w : ℕ) (p : ℤ × ℤ) : ℕ := (p.2.toNat * w + p.1.toNat) * 4

/-- The guard of the sampling loop in `sampleAverageColor`: the floored
coordinate must lie in `[0,width) × [0,height)` and the R,G,B bytes must lie
inside the data array. -/
def samplePtOk (data : List ℕ) (w h : ℕ) (p : ℤ × ℤ) : Bool :=
  decide (0 ≤ p.1 ∧ p.1 < (w : ℤ) ∧ 0 ≤ p.2 ∧ p.2 < (h : ℤ) ∧ samplePtIdx w p + 2 < data.length)

/-- `sampleAverageColor(imageData, width, height, samplePoints)` of the utility
file: sum R,G,B over the sample points that pass the guard (out-of-bounds
points are skipped, each listed point counted once), return the rounded means,
or `null` (`none`) when no sample resolved. -/
def sampleAverageColor (data : List ℕ) (w h : ℕ) (samplePts : List (ℤ × ℤ)) : Option RGBNat :=
  let valid := samplePts.filter (samplePtOk data w h)
  if valid.length = 0 then none
  else
    some ⟨jsRound ((valid.map (fun p => data.getD (samplePtIdx w p) 0)).sum) valid.length,
          jsRound ((valid.map (fun p => data.getD (samplePtIdx w p + 1) 0)).sum) valid.length,
          jsRound ((valid.map (fun p => data.getD (samplePtIdx w p + 2) 0)).sum) valid.length⟩

/-- `manipulateAlphaByColorMatch(imageData, targetRgb, tolerance)` of the
utility file (data transformation only; the progress callback of this utility
is not needed by any claim).  The source clears alpha when
`Math.sqrt dsq <= tolerance`; for an integer tolerance this is exactly
`0 ≤ tolerance ∧ dsq ≤ tolerance^2`. -/
def manipulateAlphaByColorMatch (target : RGBInt) (tolerance : ℤ) : List ℕ → List ℕ
  | r :: g :: b :: a :: rest =>
      let cleared : Bool :=
        decide (0 ≤ tolerance ∧
          calculateRgbDistanceSq ⟨(r : ℤ), (g : ℤ), (b : ℤ)⟩ target ≤ tolerance ^ 2)
      r :: g :: b :: (if cleared then 0 else a) ::
        manipulateAlphaByColorMatch target tolerance rest
  | l => l

/-- Per-pixel luminosity value of `convertToGrayscaleInPlace`:
`Math.round (0.299*r + 0.587*g + 0.114*b)` written over the common
denominator 1000. -/
def grayRound (r g b : ℕ) : ℕ := (2 * (299 * r + 587 * g + 114 * b) + 1000) / 2000

/-- `convertToGrayscaleInPlace(imageData)` of the utility file: write the gray
value into R, G and B of every pixel, leave alpha alone. -/
def convertToGrayscaleInPlace : List ℕ → List ℕ
  | r :: g :: b :: a :: rest =>
      grayRound r g b :: grayRound r g b :: grayRound r g b :: a ::
        convertToGrayscaleInPlace rest
  | l => l

/-- `SOBEL_X_KERNEL` of the utility file. -/
def SOBEL_X_KERNEL : List (List ℤ) := [[-1, 0, 1], [-2, 0, 2], [-1, 0, 1]]

/-- `SOBEL_Y_KERNEL` of the utility file. -/
def SOBEL_Y_KERNEL : List (List ℤ) := [[-1, -2, -1], [0, 0, 0], [1, 2, 1]]

/-- Replicate-clamping of a convolution coordinate:
`Math.min(bound - 1, Math.max(0, v))`. -/
def clampCoord (bound : ℕ) (v : ℤ) : ℕ := (min ((bound : ℤ) - 1) (max 0 v)).toNat

/-- Kernel entry lookup `kernel[row][col]`. -/
def kernelAt (kernel : List (List ℤ)) (row col : ℕ) : ℤ := (kernel.getD row []).getD col 0

/-- The private convolution helper of the utility file: sum, over the 3×3
neighbourhood (both loops here run over offsets 0..2, standing for the source
offsets `-1..1`), of the red channel at the edge-clamped coordinate times the
kernel entry. -/
def applyConvolutionKernelToGrayscale (sourceData : List ℕ) (x y w h : ℕ)
    (kernel : List (List ℤ)) : ℤ :=
  ((List.range 3).map (fun (ky : ℕ) =>
    ((List.range 3).map (fun (kx : ℕ) =>
      (sourceData.getD
          (4 * (clampCoord h ((y : ℤ) + (ky : ℤ) - 1) * w + clampCoord w ((x : ℤ) + (kx : ℤ) - 1)))
          0 : ℤ) * kernelAt kernel ky kx)).sum)).sum

/-- Output byte of the Sobel magnitude:
`Math.min(255, Math.max(0, Math.round (Math.sqrt (gx*gx + gy*gy))))`
(the inner `max 0` is a no-op since the magnitude is nonnegative). -/
def sobelMagnitude (gx gy : ℤ) : ℕ := min 255 (jsRoundSqrt (gx ^ 2 + gy ^ 2).toNat)

/-- `applySobelFilter(sourceImageData, width, height)` of the utility file on
the normal path (2D context available, source data present with
`length = 4*width*height`): grayscale a copy of the source, then emit, for
every pixel in row-major order, the clamped Sobel magnitude into R, G, B and
a fully opaque alpha. -/
def applySobelFilter (sourceData : List ℕ) (w h : ℕ) : List ℕ :=
  let grayscaleData := convertToGrayscaleInPlace sourceData
  ((List.range h).map (fun y =>
    ((List.range w).map (fun x =>
      let gx := applyConvolutionKernelToGrayscale grayscaleData x y w h SOBEL_X_KERNEL
      let gy := applyConvolutionKernelToGrayscale grayscaleData x y w h SOBEL_Y_KERNEL
      let m := sobelMagnitude gx gy
      [m, m, m, 255])).flatten)).flatten

/-! The service file: constants and the pure core of `removeBackground`. -/

/-- `MAX_DIMENSION_SIDE` of the service file. -/
def MAX_DIMENSION_SIDE : ℕ := 8000

/-- `MAX_TOTAL_IMAGE_PIXELS` of the service file. -/
def MAX_TOTAL_IMAGE_PIXELS : ℕ := 30000000

/-- `MAX_ITERATIONS = MAX_TOTAL_IMAGE_PIXELS * 1.5` of the service file
(45,000,000, an exact product). -/
def MAX_ITERATIONS : ℕ := MAX_TOTAL_IMAGE_PIXELS * 3 / 2

/-- Error kinds of the pure processing core of `removeBackground` (the source
rejects its promise with `Error`s carrying messages; the constructor records
which rejection fired). -/
inductive ProcErr where
  | zeroDimension
  | dimensionTooLarge
  | tooManyPixels
  | processingTimeout
  deriving DecidableEq

/-- The fixed 8-point sample set of `removeBackground` (four corners and four
edge midpoints), for a decoded image of the given dimensions. -/
def samplePoints (w h : ℕ) : List (ℕ × ℕ) :=
  [(0, 0), (w - 1, 0), (0, h - 1), (w - 1, h - 1),
   (w / 2, 0), (w / 2, h - 1), (0, h / 2), (w - 1, h / 2)]

/-- `R_OFFSET` of the sampling loop in `removeBackground`:
`(Math.min(y, height-1) * width + Math.min(x, width-1)) * 4`.  (Truncated
natural subtraction models `height-1` / `width-1`; `removeBackground` only
reaches this code with nonzero dimensions, past its dimension gate.) -/
def sampleOffset (w h : ℕ) (p : ℕ × ℕ) : ℕ := (min p.2 (h - 1) * w + min p.1 (w - 1)) * 4

/-- The sample points of `removeBackground` that pass its in-array guard
`R_OFFSET + 3 < data.length`. -/
def inlineValidPoints (data : List ℕ) (w h : ℕ) : List (ℕ × ℕ) :=
  (samplePoints w h).filter (fun p => decide (sampleOffset w h p + 3 < data.length))

/-- Channel sum (`rSum`, `gSum`, `bSum` for `channel` = 0, 1, 2) over the valid
sample points of `removeBackground`. -/
def inlineSum (data : List ℕ) (w h : ℕ) (channel : ℕ) : ℕ :=
  ((inlineValidPoints data w h).map (fun p => data.getD (sampleOffset w h p + channel) 0)).sum

/-- The estimated background colour `(avgBgR, avgBgG, avgBgB)` of
`removeBackground`.  The source keeps the exact quotient `sum / validSamples`
as a double; here the exact rational is carried as numerators plus a shared
denominator: `(numR, numG, numB, den)`.  When no sample resolved the source
falls back to `data[0]`, `data[1]`, `data[2]` (or 0 past the end), an integer
value, represented with denominator 1. -/
def inlineAverage (data : List ℕ) (w h : ℕ) : ℤ × ℤ × ℤ × ℕ :=
  let n := (inlineValidPoints data w h).length
  if 0 < n then
    ((inlineSum data w h 0 : ℤ), (inlineSum data w h 1 : ℤ), (inlineSum data w h 2 : ℤ), n)
  else
    ((data.getD 0 0 : ℤ), (data.getD 1 0 : ℤ), (data.getD 2 0 : ℤ), 1)

/-- The per-pixel background test `diff < colorMatchTolerance` (tolerance 45)
of `removeBackground`, with the exact average `num/den` cleared of
denominators: for `den > 0`,
`sqrt (Σ (c - num/den)^2) < 45  ↔  Σ (den*c - num)^2 < 2025 * den^2`. -/
def inlineMatches (numR numG numB : ℤ) (den : ℕ) (r g b : ℕ) : Bool :=
  decide (((den : ℤ) * r - numR) ^ 2 + ((den : ℤ) * g - numG) ^ 2 + ((den : ℤ) * b - numB) ^ 2
    < 2025 * (den : ℤ) ^ 2)

/-- One progress-report step of the pixel loop of `removeBackground` at pixel
index `p` (loop byte index `i = 4*p`): when the sampling stride hits
(`totalPixels > 0` and `(i/4) % floor(totalPixels/100) === 0`, which is never
true when the floor is 0 — in JS `x % 0` is `NaN`), compute
`30 + floor (((i+4) / data.length) * 60)` and emit it when it strictly exceeds
the last report without passing 90.  Returns emitted events and the new
`lastReportedPixelProgress`. -/
def progressCheck (len tp p lastReported : ℕ) : List ℕ × ℕ :=
  if 0 < tp ∧ 0 < tp / 100 ∧ p % (tp / 100) = 0 then
    let current := 30 + (4 * p + 4) * 60 / len
    if lastReported < current ∧ current ≤ 90 then ([current], current) else ([], lastReported)
  else ([], lastReported)

/-- The pixel loop of `removeBackground`: starting at pixel index `p` with the
given `lastReportedPixelProgress`, scan the remaining bytes four at a time.
Each step first bumps the iteration counter (`iterations = p + 1`) and aborts
with the safety-ceiling error once it exceeds `MAX_ITERATIONS`; otherwise it
clears alpha on a colour match and performs the progress step.  Returns the
transformed bytes and the emitted progress events. -/
def matchLoop (numR numG numB : ℤ) (den : ℕ) (len tp : ℕ) :
    ℕ → ℕ → List ℕ → Except ProcErr (List ℕ × List ℕ)
  | p, lastReported, r :: g :: b :: a :: rest =>
      if MAX_ITERATIONS < p + 1 then .error .processingTimeout
      else
        let a' := if inlineMatches numR numG numB den r g b then 0 else a
        let pr := progressCheck len tp p lastReported
        match matchLoop numR numG numB den len tp (p + 1) pr.2 rest with
        | .error e => .error e
        | .ok (d, events) => .ok (r :: g :: b :: a' :: d, pr.1 ++ events)
  | _, _, l => .ok (l, [])

/-- The loop of `removeBackground` as a pure data transformation (what the
loop does to the byte array when the safety ceiling does not trip). -/
def inlineMatchData (numR numG numB : ℤ) (den : ℕ) : List ℕ → List ℕ
  | r :: g :: b :: a :: rest =>
      r :: g :: b :: (if inlineMatches numR numG numB den r g b then 0 else a) ::
        inlineMatchData numR numG numB den rest
  | l => l

/-- The pure core of `removeBackground` once the image has been decoded to a
pixel buffer of the given dimensions: the dimension gate (zero dimensions,
maximum side, total pixel budget — in source order), then background sampling,
then the pixel loop, then re-encode.  Returns the full ordered list of
progress events delivered to `onProgress` (10 after the gate, 20 after the
canvas draw, 30 after sampling, the loop's interleaved reports, 95 after the
loop, 100 at the end) together with the final pixel data. -/
def processDecoded (w h : ℕ) (data : List ℕ) : Except ProcErr (List ℕ × List ℕ) :=
  if w = 0 ∨ h = 0 then .error .zeroDimension
  else if MAX_DIMENSION_SIDE < w ∨ MAX_DIMENSION_SIDE < h then .error .dimensionTooLarge
  else if MAX_TOTAL_IMAGE_PIXELS < w * h then .error .tooManyPixels
  else
    let avg := inlineAverage data w h
    match matchLoop avg.1 avg.2.1 avg.2.2.1 avg.2.2.2 data.length (data.length / 4) 0 30 data with
    | .error e => .error e
    | .ok (d, events) => .ok (10 :: 20 :: 30 :: (events ++ [95, 100]), d)

/-! Derived combinations and projections used by the claims. -/

/-- The utility pipeline compared in claim C10: `sampleAverageColor` on the
same fixed 8-point sample set, then `manipulateAlphaByColorMatch` with
tolerance 45 on its result (the composition named by the claim; left
unchanged when the sampler yields no colour). -/
def utilityPipeline (data : List ℕ) (w h : ℕ) : List ℕ :=
  match sampleAverageColor data w h ((samplePoints w h).map (fun p => ((p.1 : ℤ), (p.2 : ℤ)))) with
  | some c => manipulateAlphaByColorMatch ⟨(c.r : ℤ), (c.g : ℤ), (c.b : ℤ)⟩ 45 data
  | none => data

/-- The alpha channel of a flat RGBA byte list (every fourth byte). -/
def alphaChannel : List ℕ → List ℕ
  | _ :: _ :: _ :: a :: rest => a :: alphaChannel rest
  | _ => []

/-- The RGB triples of a flat RGBA byte list, pixel by pixel. -/
def pixelTriples : List ℕ → List (ℕ × ℕ × ℕ)
  | r :: g :: b :: _ :: rest => (r, g, b) :: pixelTriples rest
  | _ => []

/-- A buffer of `n` pixels all of the same colour `(r,g,b,a)`. -/
def uniformData (n r g b a : ℕ) : List ℕ := (List.replicate n [r, g, b, a]).flatten

/-! General-purpose helper lemmas. -/

/-- The luminosity weights sum to exactly 1, so the gray value of an already
gray pixel is the pixel itself. -/
lemma grayRound_self (v : ℕ) : grayRound v v v = v := by
  unfold grayRound
  omega

/-- Scaling the short side of an image never overshoots the target:
`round (s * t / L) ≤ t` whenever `s ≤ L` and `L ≥ 1`. -/
lemma jsRound_scaled_le {s L : ℕ} (t : ℕ) (hsL : s ≤ L) (hL : 1 ≤ L) :
    jsRound (s * t) L ≤ t := by
  unfold jsRound
  have hst : s * t ≤ L * t := Nat.mul_le_mul_right t hsL
  have h2L : 0 < 2 * L := by omega
  rw [Nat.div_le_iff_le_mul_add_pred h2L]
  have hassoc : 2 * L * t = 2 * (L * t) := by ring
  rw [hassoc]
  omega

deriving instance DecidableEq for Except

/-! Claim C6 — grayscale conversion is idempotent. -/

/-- Claim C6: grayscale conversion is idempotent — applying
`convertToGrayscaleInPlace` twice yields pixel data byte-identical to applying
it once (one application writes `grayRound r g b`, the embedded
`round (0.299r + 0.587g + 0.114b)`, into R, G, B and leaves alpha unchanged,
by definition of `convertToGrayscaleInPlace`). -/
theorem toGrayscale_idempotent :
    ∀ data : List ℕ,
      convertToGrayscaleInPlace (convertToGrayscaleInPlace data) =
        convertToGrayscaleInPlace data
  | r :: g :: b :: a :: rest => by
      simp only [convertToGrayscaleInPlace, grayRound_self, List.cons.injEq, true_and]
      exact toGrayscale_idempotent rest
  | [] => rfl
  | [_] => rfl
  | [_, _] => rfl
  | [_, _, _] => rfl

/-! Claim C5 — the resize decision of ensureProcessableImage. -/

/-- Claim C5, counterexample to the claim as stated: with `targetMaxSide = 0`
a 2×1 buffer is resized (via the `Math.max(1, ...)` floor) to 1×1, whose
longer side is not the target side 0 and exceeds it. -/
theorem resize_cex :
    computeResizeDims 2 1 0 = (1, 1, true) ∧
      ¬ max (computeResizeDims 2 1 0).1 (computeResizeDims 2 1 0).2.1 ≤ 0 := by
  decide

/-- Claim C5 (amended with `1 ≤ targetMaxSide`): the resize decision is a
no-op exactly when both sides are within the target; otherwise it fires, the
longer side becomes the target, the other side becomes the rounded scaled
value floored at 1px, and the resized dimensions never exceed the target. -/
theorem resize_spec :
    ∀ ow oh t : ℕ, 1 ≤ t →
      (ow ≤ t ∧ oh ≤ t → computeResizeDims ow oh t = (ow, oh, false)) ∧
      (¬(ow ≤ t ∧ oh ≤ t) →
        (computeResizeDims ow oh t).2.2 = true ∧
        (oh < ow →
          (computeResizeDims ow oh t).1 = t ∧
          (computeResizeDims ow oh t).2.1 = max 1 (jsRound (oh * t) ow)) ∧
        (¬ oh < ow →
          (computeResizeDims ow oh t).2.1 = t ∧
          (computeResizeDims ow oh t).1 = max 1 (jsRound (ow * t) oh)) ∧
        max (computeResizeDims ow oh t).1 (computeResizeDims ow oh t).2.1 ≤ t) := by
  intro ow oh t ht
  constructor
  · intro hboth
    rw [computeResizeDims, if_neg (by omega)]
  · intro hres
    rw [computeResizeDims, if_pos (by omega)]
    by_cases hcmp : oh < ow
    · rw [if_pos hcmp]
      have hW : 1 ≤ ow := by omega
      have hround : jsRound (oh * t) ow ≤ t := jsRound_scaled_le t (by omega) hW
      refine ⟨rfl, fun _ => ⟨Nat.max_eq_right ht, rfl⟩, fun hc => absurd hcmp hc, ?_⟩
      show max (max 1 t) (max 1 (jsRound (oh * t) ow)) ≤ t
      omega
    · rw [if_neg hcmp]
      have hH : 1 ≤ oh := by omega
      have hround : jsRound (ow * t) oh ≤ t := jsRound_scaled_le t (by omega) hH
      refine ⟨rfl, fun hc => absurd hc hcmp, fun _ => ⟨Nat.max_eq_right ht, rfl⟩, ?_⟩
      show max (max 1 (jsRound (ow * t) oh)) (max 1 t) ≤ t
      omega

/-- Claim C5, witness: a 5000×4500 image with target 4000 resizes to
4000×3600, within the target. -/
theorem resize_spec_witness :
    computeResizeDims 5000 4500 4000 = (4000, 3600, true) ∧
      max (computeResizeDims 5000 4500 4000).1 (computeResizeDims 5000 4500 4000).2.1 ≤ 4000 := by
  have h := (resize_spec 5000 4500 4000 (by decide)).2 (by decide)
  exact ⟨by decide, h.2.2.2⟩

/-! Claim C4 — file validation. -/

/-- Claim C4: for every candidate and configured maximum file size, validation
fails Empty when the candidate is absent, InvalidType when the declared media
type is outside the allowed set (jpeg, png, webp, plus the jpg alias),
FileTooLarge when the byte length exceeds the maximum, succeeds otherwise,
and never inspects pixel dimensions (its result is invariant under changing
the candidate's width and height).  The service-side `validateImage` is the
same check at the 20MB cap. -/
theorem validator_spec :
    ∀ maxFileSize : ℕ,
      validateImageFile none maxFileSize VALID_IMAGE_TYPES = .error .empty ∧
      (∀ f : JSFile, f.type ∉ VALID_IMAGE_TYPES →
        validateImageFile (some f) maxFileSize VALID_IMAGE_TYPES = .error (.invalidType f.type)) ∧
      (∀ f : JSFile, f.type ∈ VALID_IMAGE_TYPES → maxFileSize < f.size →
        validateImageFile (some f) maxFileSize VALID_IMAGE_TYPES = .error (.fileTooLarge f.size)) ∧
      (∀ f : JSFile, f.type ∈ VALID_IMAGE_TYPES → f.size ≤ maxFileSize →
        validateImageFile (some f) maxFileSize VALID_IMAGE_TYPES = .ok true) ∧
      (∀ (f : JSFile) (w2 h2 : ℕ),
        validateImageFile (some { f with width := w2, height := h2 }) maxFileSize
            VALID_IMAGE_TYPES =
          validateImageFile (some f) maxFileSize VALID_IMAGE_TYPES) ∧
      (∀ f : Option JSFile,
        validateImage f = validateImageFile f (20 * 1024 * 1024) VALID_IMAGE_TYPES) := by
  intro maxFileSize
  refine ⟨rfl, ?_, ?_, ?_, ?_, ?_⟩
  · intro f hf
    rw [validateImageFile, if_pos hf]
  · intro f hf hsize
    rw [validateImageFile, if_neg (by simpa using hf), if_pos hsize]
  · intro f hf hsize
    rw [validateImageFile, if_neg (by simpa using hf), if_neg (by omega)]
  · intro f w2 h2
    rfl
  · intro f
    cases f with
    | none => rfl
    | some f => rfl

/-- Claim C4, witness: a declared `image/gif` candidate is rejected as
InvalidType at the default 15MB cap. -/
theorem validator_spec_witness :
    validateImageFile (some ⟨"image/gif", 10, 3, 3⟩) MAX_FILE_SIZE_BYTES VALID_IMAGE_TYPES =
      .error (.invalidType "image/gif") :=
  (validator_spec MAX_FILE_SIZE_BYTES).2.1 ⟨"image/gif", 10, 3, 3⟩ (by decide)

/-! Claim C1 — the alpha matcher. -/

/-- Claim C1, counterexample to the claim as stated: `manipulateAlphaByColorMatch`
clears alpha with a non-strict comparison, so the pixel (3,4,0), at Euclidean
distance exactly 5 from the target (0,0,0), has its alpha cleared at tolerance
5 even though its distance is not strictly less than the tolerance. -/
theorem alphaMatcher_cex :
    manipulateAlphaByColorMatch ⟨0, 0, 0⟩ 5 [3, 4, 0, 255] = [3, 4, 0, 0] ∧
      ¬ calculateRgbDistanceSq ⟨3, 4, 0⟩ ⟨0, 0, 0⟩ < 5 ^ 2 := by
  decide

/-- Claim C1 (amended: the comparison is non-strict, so pixels exactly at the
tolerance boundary ARE cleared, and a pixel that was already transparent stays
so): after `manipulateAlphaByColorMatch` every pixel's R, G, B bytes are
byte-identical to the input (and the length is preserved), and the alpha
channel is, pixel by pixel, 0 when the pre-call RGB distance to the target is
at most the tolerance and the untouched input alpha otherwise. -/
theorem alphaMatcher_spec :
    ∀ (target : RGBInt) (tolerance : ℤ) (data : List ℕ),
      pixelTriples (manipulateAlphaByColorMatch target tolerance data) = pixelTriples data ∧
      (manipulateAlphaByColorMatch target tolerance data).length = data.length ∧
      alphaChannel (manipulateAlphaByColorMatch target tolerance data) =
        List.zipWith
          (fun c a =>
            if 0 ≤ tolerance ∧
                calculateRgbDistanceSq ⟨(c.1 : ℤ), (c.2.1 : ℤ), (c.2.2 : ℤ)⟩ target ≤
                  tolerance ^ 2 then
              0
            else a)
          (pixelTriples data) (alphaChannel data)
  | target, tolerance, r :: g :: b :: a :: rest => by
      obtain ⟨h1, h2, h3⟩ := alphaMatcher_spec target tolerance rest
      refine ⟨?_, ?_, ?_⟩
      · simp only [manipulateAlphaByColorMatch, pixelTriples, h1]
      · simp only [manipulateAlphaByColorMatch, List.length_cons, h2]
      · simp only [manipulateAlphaByColorMatch, pixelTriples, alphaChannel, List.zipWith, h3,
          List.cons.injEq, and_true]
        split <;> rename_i hdec
        · rw [if_pos (by simpa using hdec)]
        · rw [if_neg (by simpa using hdec)]
  | target, tolerance, [] => ⟨rfl, rfl, rfl⟩
  | target, tolerance, [_] => ⟨rfl, rfl, rfl⟩
  | target, tolerance, [_, _] => ⟨rfl, rfl, rfl⟩
  | target, tolerance, [_, _, _] => ⟨rfl, rfl, rfl⟩

/-! Claim C2 — the background sampler. -/

/-- On a well-formed buffer (`data.length = 4*(w*h)`) the in-array part of the
sampling guard is implied by the coordinate bounds, so `sampleAverageColor`
keeps exactly the coordinate-in-bounds sample points (and in particular never
touches an out-of-range index). -/
lemma samplePtOk_of_wf {data : List ℕ} {w h : ℕ} (hwf : data.length = 4 * (w * h))
    (p : ℤ × ℤ) :
    samplePtOk data w h p =
      decide (0 ≤ p.1 ∧ p.1 < (w : ℤ) ∧ 0 ≤ p.2 ∧ p.2 < (h : ℤ)) := by
  unfold samplePtOk
  rw [decide_eq_decide]
  constructor
  · rintro ⟨a1, a2, a3, a4, -⟩
    exact ⟨a1, a2, a3, a4⟩
  · rintro ⟨a1, a2, a3, a4⟩
    refine ⟨a1, a2, a3, a4, ?_⟩
    have hX : p.1.toNat < w := by omega
    have hY : p.2.toNat < h := by omega
    have hb : p.2.toNat * w + p.1.toNat < h * w := by
      calc p.2.toNat * w + p.1.toNat < p.2.toNat * w + w := by omega
        _ = (p.2.toNat + 1) * w := by ring
        _ ≤ h * w := Nat.mul_le_mul_right w hY
    have hc : h * w = w * h := Nat.mul_comm h w
    rw [hwf, samplePtIdx]
    omega

/-- Claim C2, counterexample to the claim as stated: on a 1×1 buffer the
out-of-bounds sample coordinate (2,0) is skipped, not clamped into range —
zero samples resolve and `sampleAverageColor` returns no colour at all
(neither the clamped pixel's colour nor a first-pixel fallback), while the
same call at the clamp target (0,0) would return that pixel's colour. -/
theorem sampler_cex :
    sampleAverageColor [10, 20, 30, 255] 1 1 [(2, 0)] = none ∧
      sampleAverageColor [10, 20, 30, 255] 1 1 [(0, 0)] = some ⟨10, 20, 30⟩ := by
  constructor
  · decide
  · decide

/-- Claim C2 (amended: out-of-bounds coordinates are skipped rather than
clamped, the means are rounded to integers, and zero resolving samples yield
no colour — the first-pixel / black fallback lives in the inline estimator of
`removeBackground`, not here): on every well-formed buffer
`sampleAverageColor` returns exactly the rounded arithmetic means of the R, G,
B values of the coordinate-in-bounds sample points (each list entry counted
once, alpha ignored, no out-of-bounds index ever read), and `none` when no
sample point is in bounds. -/
theorem sampler_spec :
    ∀ (w h : ℕ) (data : List ℕ) (samplePts : List (ℤ × ℤ)),
      data.length = 4 * (w * h) →
      sampleAverageColor data w h samplePts =
        if (samplePts.filter fun p =>
              decide (0 ≤ p.1 ∧ p.1 < (w : ℤ) ∧ 0 ≤ p.2 ∧ p.2 < (h : ℤ))).length = 0 then
          none
        else
          some
            ⟨jsRound (((samplePts.filter fun p =>
                  decide (0 ≤ p.1 ∧ p.1 < (w : ℤ) ∧ 0 ≤ p.2 ∧ p.2 < (h : ℤ))).map
                    (fun p => data.getD (samplePtIdx w p) 0)).sum)
                ((samplePts.filter fun p =>
                  decide (0 ≤ p.1 ∧ p.1 < (w : ℤ) ∧ 0 ≤ p.2 ∧ p.2 < (h : ℤ))).length),
              jsRound (((samplePts.filter fun p =>
                  decide (0 ≤ p.1 ∧ p.1 < (w : ℤ) ∧ 0 ≤ p.2 ∧ p.2 < (h : ℤ))).map
                    (fun p => data.getD (samplePtIdx w p + 1) 0)).sum)
                ((samplePts.filter fun p =>
                  decide (0 ≤ p.1 ∧ p.1 < (w : ℤ) ∧ 0 ≤ p.2 ∧ p.2 < (h : ℤ))).length),
              jsRound (((samplePts.filter fun p =>
                  decide (0 ≤ p.1 ∧ p.1 < (w : ℤ) ∧ 0 ≤ p.2 ∧ p.2 < (h : ℤ))).map
                    (fun p => data.getD (samplePtIdx w p + 2) 0)).sum)
                ((samplePts.filter fun p =>
                  decide (0 ≤ p.1 ∧ p.1 < (w : ℤ) ∧ 0 ≤ p.2 ∧ p.2 < (h : ℤ))).length)⟩ := by
  intro w h data samplePts hwf
  have hfe : samplePts.filter (samplePtOk data w h) =
      samplePts.filter fun p =>
        decide (0 ≤ p.1 ∧ p.1 < (w : ℤ) ∧ 0 ≤ p.2 ∧ p.2 < (h : ℤ)) :=
    List.filter_congr fun p _ => samplePtOk_of_wf hwf p
  rw [sampleAverageColor]
  rw [hfe]

/-- Claim C2, witness: on a well-formed 1×1 buffer with one in-bounds and one
out-of-bounds sample point, the sampler averages exactly the in-bounds point. -/
theorem sampler_spec_witness :
    sampleAverageColor [10, 20, 30, 255] 1 1 [(0, 0), (5, 5)] = some ⟨10, 20, 30⟩ := by
  rw [sampler_spec 1 1 [10, 20, 30, 255] [(0, 0), (5, 5)] (by decide)]
  decide

/-! The pixel loop: helper lemmas. -/

/-- The only error the pixel loop itself can produce is the safety-ceiling
timeout. -/
lemma matchLoop_error_timeout (numR numG numB : ℤ) (den len tp : ℕ) :
    ∀ (rest : List ℕ) (p lastReported : ℕ) (e : ProcErr),
      matchLoop numR numG numB den len tp p lastReported rest = .error e →
      e = .processingTimeout
  | r :: g :: b :: a :: rest, p, lastReported, e => fun hm => by
      rw [matchLoop] at hm
      split at hm
      · cases hm
        rfl
      · dsimp only at hm
        split at hm
        · rename_i e2 heq
          cases hm
          exact matchLoop_error_timeout numR numG numB den len tp rest (p + 1) _ _ heq
        · cases hm
  | [], _, _, e => fun hm => by simp [matchLoop] at hm
  | [_], _, _, e => fun hm => by simp [matchLoop] at hm
  | [_, _], _, _, e => fun hm => by simp [matchLoop] at hm
  | [_, _, _], _, _, e => fun hm => by simp [matchLoop] at hm

/-! Claim C3 — the dimension gate of removeBackground. -/

/-- Claim C3: after decode, `removeBackground` rejects zero dimensions with
the zero-dimension error, then any side over `MAX_DIMENSION_SIDE` (8000) with
the dimension-too-large error, then any pixel count over
`MAX_TOTAL_IMAGE_PIXELS` (30,000,000) with the too-many-pixels error — in
that priority order — and a 9000×9000 buffer is rejected whatever its data,
i.e. before sampling or per-pixel work could observe the buffer. -/
theorem dimension_gate_spec :
    (∀ (w h : ℕ) (data : List ℕ),
      processDecoded w h data = .error .zeroDimension ↔ w = 0 ∨ h = 0) ∧
    (∀ (w h : ℕ) (data : List ℕ), w ≠ 0 → h ≠ 0 →
      (processDecoded w h data = .error .dimensionTooLarge ↔
        MAX_DIMENSION_SIDE < max w h)) ∧
    (∀ (w h : ℕ) (data : List ℕ), w ≠ 0 → h ≠ 0 → max w h ≤ MAX_DIMENSION_SIDE →
      (processDecoded w h data = .error .tooManyPixels ↔
        MAX_TOTAL_IMAGE_PIXELS < w * h)) ∧
    (∀ data : List ℕ, processDecoded 9000 9000 data = .error .dimensionTooLarge) := by
  refine ⟨?_, ?_, ?_, ?_⟩
  · intro w h data
    constructor
    · intro hm
      by_contra h0
      rw [processDecoded, if_neg h0] at hm
      by_cases hD : MAX_DIMENSION_SIDE < w ∨ MAX_DIMENSION_SIDE < h
      · rw [if_pos hD] at hm
        simp at hm
      · rw [if_neg hD] at hm
        by_cases hT : MAX_TOTAL_IMAGE_PIXELS < w * h
        · rw [if_pos hT] at hm
          simp at hm
        · rw [if_neg hT] at hm
          dsimp only at hm
          split at hm
          · rename_i e2 heq
            cases hm
            simpa using matchLoop_error_timeout _ _ _ _ _ _ data 0 30 _ heq
          · cases hm
    · intro h0
      rw [processDecoded, if_pos h0]
  · intro w h data hw hh
    constructor
    · intro hm
      rw [processDecoded, if_neg (by omega)] at hm
      by_cases hD : MAX_DIMENSION_SIDE < w ∨ MAX_DIMENSION_SIDE < h
      · omega
      · rw [if_neg hD] at hm
        by_cases hT : MAX_TOTAL_IMAGE_PIXELS < w * h
        · rw [if_pos hT] at hm
          simp at hm
        · rw [if_neg hT] at hm
          dsimp only at hm
          split at hm
          · rename_i e2 heq
            cases hm
            simpa using matchLoop_error_timeout _ _ _ _ _ _ data 0 30 _ heq
          · cases hm
    · intro hD
      rw [processDecoded, if_neg (by omega), if_pos (by omega)]
  · intro w h data hw hh hD
    constructor
    · intro hm
      rw [processDecoded, if_neg (by omega), if_neg (by omega)] at hm
      by_cases hT : MAX_TOTAL_IMAGE_PIXELS < w * h
      · exact hT
      · rw [if_neg hT] at hm
        dsimp only at hm
        split at hm
        · rename_i e2 heq
          cases hm
          simpa using matchLoop_error_timeout _ _ _ _ _ _ data 0 30 _ heq
        · cases hm
    · intro hT
      rw [processDecoded, if_neg (by omega), if_neg (by omega), if_pos hT]
  · intro data
    rw [processDecoded, if_neg (by decide), if_pos (by decide)]

/-- Claim C3, witness: a 9000×50 buffer (nonzero dimensions) is rejected as
dimension-too-large. -/
theorem dimension_gate_spec_witness :
    processDecoded 9000 50 [] = .error .dimensionTooLarge :=
  (dimension_gate_spec.2.1 9000 50 [] (by decide) (by decide)).mpr (by decide)

/-- A list of length at least four starts with four cons cells. -/
lemma list_four_cons : ∀ l : List ℕ, 4 ≤ l.length → ∃ r g b a t, l = r :: g :: b :: a :: t
  | r :: g :: b :: a :: t, _ => ⟨r, g, b, a, t, rfl⟩
  | [], hl => absurd hl (by simp)
  | [_], hl => absurd hl (by simp)
  | [_, _], hl => absurd hl (by simp)
  | [_, _, _], hl => absurd hl (by simp)

/-- Once `MAX_ITERATIONS - p` more pixels are available, the loop starting at
pixel `p` always trips the safety ceiling. -/
lemma matchLoop_timeout_aux (numR numG numB : ℤ) (den len tp : ℕ) :
    ∀ (k p lastReported : ℕ) (rest : List ℕ), MAX_ITERATIONS = p + k →
      4 * (k + 1) ≤ rest.length →
      matchLoop numR numG numB den len tp p lastReported rest = .error .processingTimeout
  | 0, p, lastReported, rest, hM, hlen => by
      obtain ⟨r, g, b, a, t, rfl⟩ := list_four_cons rest (by omega)
      rw [matchLoop, if_pos (by omega)]
  | k + 1, p, lastReported, rest, hM, hlen => by
      obtain ⟨r, g, b, a, t, rfl⟩ := list_four_cons rest (by omega)
      rw [matchLoop, if_neg (by omega)]
      have hrec := matchLoop_timeout_aux numR numG numB den len tp k (p + 1)
        (progressCheck len tp p lastReported).2 t (by omega)
        (by simp only [List.length_cons] at hlen ⊢; omega)
      dsimp only
      rw [hrec]

/-- When the pixel budget from `p` on stays within the ceiling, the loop
completes, transforming the bytes exactly as `inlineMatchData`. -/
lemma matchLoop_ok (numR numG numB : ℤ) (den len tp : ℕ) :
    ∀ (rest : List ℕ) (p lastReported : ℕ), p + rest.length / 4 ≤ MAX_ITERATIONS →
      ∃ events, matchLoop numR numG numB den len tp p lastReported rest =
        .ok (inlineMatchData numR numG numB den rest, events)
  | r :: g :: b :: a :: t, p, lastReported, hbudget => by
      have hlen : (r :: g :: b :: a :: t).length / 4 = t.length / 4 + 1 := by
        simp only [List.length_cons]
        omega
      obtain ⟨events, hev⟩ := matchLoop_ok numR numG numB den len tp t (p + 1)
        (progressCheck len tp p lastReported).2 (by omega)
      refine ⟨(progressCheck len tp p lastReported).1 ++ events, ?_⟩
      rw [matchLoop, if_neg (by omega)]
      dsimp only
      rw [hev, inlineMatchData]
  | [], p, lastReported, _ => ⟨[], rfl⟩
  | [x], p, lastReported, _ => ⟨[], rfl⟩
  | [x, y], p, lastReported, _ => ⟨[], rfl⟩
  | [x, y, z], p, lastReported, _ => ⟨[], rfl⟩

/-- The byte length of a uniform buffer of `n` pixels. -/
lemma uniformData_length (n r g b a : ℕ) : (uniformData n r g b a).length = 4 * n := by
  induction n with
  | zero => rfl
  | succ m ih =>
      simp only [uniformData, List.replicate_succ, List.flatten_cons] at ih ⊢
      simp [ih]
      omega

/-! Claim C9 — the iteration safety ceiling of the pixel loop. -/

/-- Claim C9: a buffer handed to the pixel loop with more than
`MAX_ITERATIONS` (1.5 × the 30,000,000 pixel budget) pixels makes the loop
abort with the processing-timeout error instead of completing; with at most
that many pixels the loop always completes (producing the scanned data) with
no such error. -/
theorem safety_ceiling_spec :
    ∀ (numR numG numB : ℤ) (den len tp : ℕ) (data : List ℕ),
      (MAX_ITERATIONS < data.length / 4 →
        matchLoop numR numG numB den len tp 0 30 data = .error .processingTimeout) ∧
      (data.length / 4 ≤ MAX_ITERATIONS →
        ∃ events, matchLoop numR numG numB den len tp 0 30 data =
          .ok (inlineMatchData numR numG numB den data, events)) := by
  intro numR numG numB den len tp data
  constructor
  · intro hover
    refine matchLoop_timeout_aux numR numG numB den len tp MAX_ITERATIONS 0 30 data (by omega) ?_
    have : MAX_ITERATIONS + 1 ≤ data.length / 4 := hover
    omega
  · intro hunder
    exact matchLoop_ok numR numG numB den len tp data 0 30 (by omega)

/-- Claim C9, witness: a directly constructed 45,000,001-pixel buffer (one
pixel over the ceiling) aborts with the timeout error. -/
theorem safety_ceiling_spec_witness :
    matchLoop 0 0 0 8 (4 * 45000001) 45000001 0 30 (uniformData 45000001 0 0 0 255) =
      .error .processingTimeout :=
  (safety_ceiling_spec 0 0 0 8 (4 * 45000001) 45000001 (uniformData 45000001 0 0 0 255)).1
    (by rw [uniformData_length]; decide)

/-- A progress step either emits nothing and keeps the last report, or emits
one value strictly above the last report and at most 90, which becomes the new
last report. -/
lemma progressCheck_cases (len tp p lastReported : ℕ) :
    progressCheck len tp p lastReported = ([], lastReported) ∨
      ∃ c, progressCheck len tp p lastReported = ([c], c) ∧ lastReported < c ∧ c ≤ 90 := by
  unfold progressCheck
  split
  · dsimp only
    split
    · rename_i hc
      exact Or.inr ⟨_, rfl, hc.1, hc.2⟩
    · exact Or.inl rfl
  · exact Or.inl rfl

/-- The events emitted by a completing pixel loop form a strictly increasing
chain starting above the incoming last report, all bounded by 90. -/
lemma matchLoop_events_chain (numR numG numB : ℤ) (den len tp : ℕ) :
    ∀ (rest : List ℕ) (p lastReported : ℕ) (d events : List ℕ),
      matchLoop numR numG numB den len tp p lastReported rest = .ok (d, events) →
      List.Chain (· < ·) lastReported events ∧ ∀ x ∈ events, x ≤ 90
  | r :: g :: b :: a :: t, p, lastReported, d, events => fun hm => by
      rw [matchLoop] at hm
      split at hm
      · simp at hm
      · dsimp only at hm
        split at hm
        · simp at hm
        · rename_i d0 ev0 heq
          obtain ⟨hchain, hbound⟩ :=
            matchLoop_events_chain numR numG numB den len tp t (p + 1)
              (progressCheck len tp p lastReported).2 d0 ev0 heq
          cases hm
          rcases progressCheck_cases len tp p lastReported with hpc | ⟨c, hpc, hlt, hle⟩
          · rw [hpc] at hchain ⊢
            simpa using ⟨hchain, hbound⟩
          · rw [hpc] at hchain ⊢
            refine ⟨List.Chain.cons hlt hchain, ?_⟩
            intro x hx
            rcases List.mem_cons.mp hx with rfl | hx
            · exact hle
            · exact hbound x hx
  | [], p, lastReported, d, events => fun hm => by
      have hr : matchLoop numR numG numB den len tp p lastReported [] = .ok ([], []) := rfl
      rw [hr] at hm
      cases hm
      exact ⟨List.Chain.nil, by simp⟩
  | [x], p, lastReported, d, events => fun hm => by
      have hr : matchLoop numR numG numB den len tp p lastReported [x] = .ok ([x], []) := rfl
      rw [hr] at hm
      cases hm
      exact ⟨List.Chain.nil, by simp⟩
  | [x, y], p, lastReported, d, events => fun hm => by
      have hr : matchLoop numR numG numB den len tp p lastReported [x, y] = .ok ([x, y], []) := rfl
      rw [hr] at hm
      cases hm
      exact ⟨List.Chain.nil, by simp⟩
  | [x, y, z], p, lastReported, d, events => fun hm => by
      have hr : matchLoop numR numG numB den len tp p lastReported [x, y, z] = .ok ([x, y, z], []) := rfl
      rw [hr] at hm
      cases hm
      exact ⟨List.Chain.nil, by simp⟩

/-- Appending the tail reports 95 and 100 to the loop's strictly increasing,
90-bounded events keeps the whole sequence non-decreasing. -/
lemma chain_le_append_tail : ∀ (events : List ℕ) (a : ℕ),
    List.Chain (· < ·) a events → (∀ x ∈ events, x ≤ 90) → a ≤ 95 →
    List.Chain (· ≤ ·) a (events ++ [95, 100])
  | [], a, _, _, ha => List.Chain.cons ha (List.Chain.cons (by omega) List.Chain.nil)
  | e :: events, a, hchain, hbound, ha => by
      cases hchain with
      | cons hae htail =>
          refine List.Chain.cons (le_of_lt hae) ?_
          refine chain_le_append_tail events e htail
            (fun x hx => hbound x (List.mem_cons_of_mem _ hx)) ?_
          have := hbound e (List.mem_cons_self _ _)
          omega

/-! Claim C8 — progress events of removeBackground. -/

/-- Claim C8: within one successful invocation of the background-removal
operation the delivered progress values (all natural numbers, hence at least
0) are monotonically non-decreasing, each is at most 100, and the final one is
exactly 100. -/
theorem progress_spec :
    ∀ (w h : ℕ) (data events d : List ℕ),
      processDecoded w h data = .ok (events, d) →
      List.Chain' (· ≤ ·) events ∧ (∀ x ∈ events, x ≤ 100) ∧
        events.getLast? = some 100 := by
  intro w h data events d hm
  rw [processDecoded] at hm
  split at hm
  · simp at hm
  split at hm
  · simp at hm
  split at hm
  · simp at hm
  dsimp only at hm
  split at hm
  · simp at hm
  rename_i d0 ev0 heq
  obtain ⟨hchain, hbound⟩ := matchLoop_events_chain _ _ _ _ _ _ data 0 30 d0 ev0 heq
  cases hm
  refine ⟨?_, ?_, ?_⟩
  · show List.Chain (· ≤ ·) 10 (20 :: 30 :: (ev0 ++ [95, 100]))
    refine List.Chain.cons (by omega) (List.Chain.cons (by omega) ?_)
    exact chain_le_append_tail ev0 30 hchain hbound (by omega)
  · intro x hx
    simp only [List.mem_cons, List.mem_append, List.not_mem_nil, or_false] at hx
    rcases hx with rfl | rfl | rfl | hx | rfl | rfl
    · omega
    · omega
    · omega
    · have := hbound x hx
      omega
    · omega
    · omega
  · show (10 :: 20 :: 30 :: (ev0 ++ [95, 100])).getLast? = some 100
    have hsplit : 10 :: 20 :: 30 :: (ev0 ++ [95, 100]) =
        (10 :: 20 :: 30 :: (ev0 ++ [95])) ++ [100] := by
      simp
    rw [hsplit, List.getLast?_concat]

/-- Claim C8, witness: a successful 1×1 run delivers exactly
10, 20, 30, 95, 100 — non-decreasing, within bounds, ending at 100. -/
theorem progress_spec_witness :
    List.Chain' (· ≤ ·) [10, 20, 30, 95, 100] ∧
      (∀ x ∈ ([10, 20, 30, 95, 100] : List ℕ), x ≤ 100) ∧
      ([10, 20, 30, 95, 100] : List ℕ).getLast? = some 100 :=
  progress_spec 1 1 [0, 0, 0, 255] [10, 20, 30, 95, 100] [0, 0, 0, 0] (by decide)

/-! Claim C7 — Sobel on a uniform buffer. -/

/-- Grayscaling a uniform buffer yields a uniform buffer of the gray value. -/
lemma grayscale_uniform (r g b a : ℕ) :
    ∀ n : ℕ, convertToGrayscaleInPlace (uniformData n r g b a) =
      uniformData n (grayRound r g b) (grayRound r g b) (grayRound r g b) a := by
  intro n
  induction n with
  | zero => rfl
  | succ m ih =>
      simp only [uniformData, List.replicate_succ, List.flatten_cons, List.cons_append,
        List.nil_append] at ih ⊢
      simp only [convertToGrayscaleInPlace, ih]

/-- Reading the R byte of pixel `k` of a uniform buffer. -/
lemma uniformData_getD_head (r g b a : ℕ) :
    ∀ n k : ℕ, k < n → (uniformData n r g b a).getD (4 * k) 0 = r
  | n + 1, 0, _ => by
      simp [uniformData, List.replicate_succ]
  | n + 1, k + 1, hk => by
      have h4 : 4 * (k + 1) = 4 * k + 4 := by ring
      have ih := uniformData_getD_head r g b a n k (by omega)
      simp only [uniformData, List.replicate_succ, List.flatten_cons, List.cons_append,
        List.nil_append, h4] at ih ⊢
      simpa [List.getD_cons_succ] using ih

/-- Edge-replication clamping always lands strictly inside a nonempty axis. -/
lemma clampCoord_lt (bound : ℕ) (hb : 1 ≤ bound) (v : ℤ) : clampCoord bound v < bound := by
  unfold clampCoord
  omega

/-- Every (clamped) convolution tap on a uniform grayscale buffer reads the
same value. -/
lemma sample_uniform (v a w h : ℕ) (hw : 1 ≤ w) (hh : 1 ≤ h) (px py : ℤ) :
    (uniformData (w * h) v v v a).getD (4 * (clampCoord h py * w + clampCoord w px)) 0 = v := by
  have hx := clampCoord_lt w hw px
  have hy := clampCoord_lt h hh py
  have hk : clampCoord h py * w + clampCoord w px < w * h := by
    have hstep : clampCoord h py * w + clampCoord w px < (clampCoord h py + 1) * w := by
      have : (clampCoord h py + 1) * w = clampCoord h py * w + w := by ring
      omega
    have hle : (clampCoord h py + 1) * w ≤ h * w := Nat.mul_le_mul_right w hy
    have hc : h * w = w * h := Nat.mul_comm h w
    omega
  exact uniformData_getD_head v v v a (w * h) _ hk

/-- Both Sobel kernels sum to zero, so convolving them over a uniform
grayscale buffer gives zero. -/
lemma conv_uniform_zero (v a w h x y : ℕ) (hw : 1 ≤ w) (hh : 1 ≤ h)
    (kernel : List (List ℤ)) (hker : kernel = SOBEL_X_KERNEL ∨ kernel = SOBEL_Y_KERNEL) :
    applyConvolutionKernelToGrayscale (uniformData (w * h) v v v a) x y w h kernel = 0 := by
  have hs : ∀ px py : ℤ,
      ((uniformData (w * h) v v v a).getD (4 * (clampCoord h py * w + clampCoord w px)) 0 : ℤ) =
        (v : ℤ) := by
    intro px py
    exact_mod_cast congrArg (Nat.cast : ℕ → ℤ) (sample_uniform v a w h hw hh px py)
  rw [applyConvolutionKernelToGrayscale]
  simp only [List.range_succ, List.range_zero, List.nil_append, List.cons_append,
    List.map_cons, List.map_nil, List.sum_cons, List.sum_nil, hs]
  rcases hker with rfl | rfl <;>
    · simp only [kernelAt, SOBEL_X_KERNEL, SOBEL_Y_KERNEL, List.getD_cons_zero,
        List.getD_cons_succ]
      ring

/-- Stacking `m` rows of `k` identical pixel blocks is the same as `m*k`
blocks. -/
lemma flatten_replicate_flatten (m k : ℕ) (blk : List ℕ) :
    (List.replicate m (List.replicate k blk).flatten).flatten =
      (List.replicate (m * k) blk).flatten := by
  induction m with
  | zero => simp
  | succ i ih =>
      have hmk : (i + 1) * k = k + i * k := by ring
      simp only [List.replicate_succ, List.flatten_cons, ih, hmk, List.replicate_add,
        List.flatten_append]

/-- Claim C7: the Sobel edge detector applied to a uniform-colour buffer of
any dimensions (with edge-replicated boundary handling, so even 1-pixel axes
convolve against copies of the same colour) produces a buffer of the same
dimensions in which every pixel is black (R = G = B = 0) and fully opaque
(alpha 255).  (The embedded detector is a pure function of the source bytes,
which it leaves untouched.) -/
theorem sobel_uniform_spec :
    ∀ w h r g b a : ℕ,
      applySobelFilter (uniformData (w * h) r g b a) w h = uniformData (w * h) 0 0 0 255 := by
  intro w h r g b a
  rcases Nat.eq_zero_or_pos w with hw | hw
  · subst hw
    simp [applySobelFilter, uniformData, List.flatten_eq_nil_iff]
  rcases Nat.eq_zero_or_pos h with hh | hh
  · subst hh
    simp [applySobelFilter, uniformData]
  rw [applySobelFilter]
  dsimp only
  rw [grayscale_uniform]
  have hblock : ∀ x y : ℕ,
      [sobelMagnitude
          (applyConvolutionKernelToGrayscale
            (uniformData (w * h) (grayRound r g b) (grayRound r g b) (grayRound r g b) a)
            x y w h SOBEL_X_KERNEL)
          (applyConvolutionKernelToGrayscale
            (uniformData (w * h) (grayRound r g b) (grayRound r g b) (grayRound r g b) a)
            x y w h SOBEL_Y_KERNEL),
        sobelMagnitude
          (applyConvolutionKernelToGrayscale
            (uniformData (w * h) (grayRound r g b) (grayRound r g b) (grayRound r g b) a)
            x y w h SOBEL_X_KERNEL)
          (applyConvolutionKernelToGrayscale
            (uniformData (w * h) (grayRound r g b) (grayRound r g b) (grayRound r g b) a)
            x y w h SOBEL_Y_KERNEL),
        sobelMagnitude
          (applyConvolutionKernelToGrayscale
            (uniformData (w * h) (grayRound r g b) (grayRound r g b) (grayRound r g b) a)
            x y w h SOBEL_X_KERNEL)
          (applyConvolutionKernelToGrayscale
            (uniformData (w * h) (grayRound r g b) (grayRound r g b) (grayRound r g b) a)
            x y w h SOBEL_Y_KERNEL),
        255] = [0, 0, 0, 255] := by
    intro x y
    rw [conv_uniform_zero _ a w h x y hw hh SOBEL_X_KERNEL (Or.inl rfl),
      conv_uniform_zero _ a w h x y hw hh SOBEL_Y_KERNEL (Or.inr rfl)]
    rfl
  have hinner : ∀ y : ℕ,
      ((List.range w).map fun x =>
        [sobelMagnitude
            (applyConvolutionKernelToGrayscale
              (uniformData (w * h) (grayRound r g b) (grayRound r g b) (grayRound r g b) a)
              x y w h SOBEL_X_KERNEL)
            (applyConvolutionKernelToGrayscale
              (uniformData (w * h) (grayRound r g b) (grayRound r g b) (grayRound r g b) a)
              x y w h SOBEL_Y_KERNEL),
          sobelMagnitude
            (applyConvolutionKernelToGrayscale
              (uniformData (w * h) (grayRound r g b) (grayRound r g b) (grayRound r g b) a)
              x y w h SOBEL_X_KERNEL)
            (applyConvolutionKernelToGrayscale
              (uniformData (w * h) (grayRound r g b) (grayRound r g b) (grayRound r g b) a)
              x y w h SOBEL_Y_KERNEL),
          sobelMagnitude
            (applyConvolutionKernelToGrayscale
              (uniformData (w * h) (grayRound r g b) (grayRound r g b) (grayRound r g b) a)
              x y w h SOBEL_X_KERNEL)
            (applyConvolutionKernelToGrayscale
              (uniformData (w * h) (grayRound r g b) (grayRound r g b) (grayRound r g b) a)
              x y w h SOBEL_Y_KERNEL),
          255]) = List.replicate w [0, 0, 0, 255] := by
    intro y
    rw [List.map_congr_left fun x _ => hblock x y]
    simp [List.map_const']
  rw [List.map_congr_left fun y _ => congrArg List.flatten (hinner y)]
  rw [List.map_const']
  simp only [List.length_range]
  rw [flatten_replicate_flatten, Nat.mul_comm h w]
  rfl

/-! Claim C10 — the inline loop of removeBackground versus the utility
pipeline. -/

/-- With denominator 8 and numerators that are 8 times an integer average,
the inline strict test is the strict squared-distance test against that
average. -/
lemma inlineMatches_scaled (u0 u1 u2 : ℤ) (r g b : ℕ) :
    inlineMatches (8 * u0) (8 * u1) (8 * u2) 8 r g b =
      decide (calculateRgbDistanceSq ⟨(r : ℤ), (g : ℤ), (b : ℤ)⟩ ⟨u0, u1, u2⟩ < 2025) := by
  simp only [inlineMatches, calculateRgbDistanceSq, decide_eq_decide]
  have key : (((8 : ℕ) : ℤ) * r - 8 * u0) ^ 2 + (((8 : ℕ) : ℤ) * g - 8 * u1) ^ 2 +
      (((8 : ℕ) : ℤ) * b - 8 * u2) ^ 2 =
      64 * (((r : ℤ) - u0) ^ 2 + ((g : ℤ) - u1) ^ 2 + ((b : ℤ) - u2) ^ 2) := by
    push_cast
    ring
  rw [key]
  have key2 : (2025 : ℤ) * ((8 : ℕ) : ℤ) ^ 2 = 64 * 2025 := by norm_num
  rw [key2]
  constructor
  · intro hlt
    nlinarith
  · intro hlt
    nlinarith

/-- On a well-formed nonempty buffer every one of the eight fixed sample
points of removeBackground passes the in-array guard. -/
lemma inlineValidPoints_all {w h : ℕ} {data : List ℕ} (hw : 1 ≤ w) (hh : 1 ≤ h)
    (hwf : data.length = 4 * (w * h)) : inlineValidPoints data w h = samplePoints w h := by
  unfold inlineValidPoints
  apply List.filter_eq_self.mpr
  intro p _
  rw [decide_eq_true_iff]
  unfold sampleOffset
  have h1 : min p.2 (h - 1) ≤ h - 1 := Nat.min_le_right _ _
  have h2 : min p.1 (w - 1) ≤ w - 1 := Nat.min_le_right _ _
  have hb : min p.2 (h - 1) * w + min p.1 (w - 1) < w * h := by
    have hc : (h - 1) * w + w = h * w := by
      have hh1 : h - 1 + 1 = h := by omega
      calc (h - 1) * w + w = (h - 1 + 1) * w := by ring
        _ = h * w := by rw [hh1]
    have hmono : min p.2 (h - 1) * w ≤ (h - 1) * w := Nat.mul_le_mul_right w h1
    have hcomm : h * w = w * h := Nat.mul_comm h w
    omega
  omega

/-- On a well-formed nonempty buffer the inline average of removeBackground
is the three channel sums over the denominator 8. -/
lemma inlineAverage_eq {w h : ℕ} {data : List ℕ} (hw : 1 ≤ w) (hh : 1 ≤ h)
    (hwf : data.length = 4 * (w * h)) :
    inlineAverage data w h =
      ((inlineSum data w h 0 : ℤ), (inlineSum data w h 1 : ℤ),
        (inlineSum data w h 2 : ℤ), 8) := by
  have hn : (inlineValidPoints data w h).length = 8 := by
    rw [inlineValidPoints_all hw hh hwf]
    rfl
  unfold inlineAverage
  rw [hn, if_pos (by omega)]

/-- The eight fixed sample points, cast to the coordinate type of
`sampleAverageColor`, all pass its guard on a well-formed nonempty buffer. -/
lemma samplePts_cast_ok {w h : ℕ} {data : List ℕ} (hw : 1 ≤ w) (hh : 1 ≤ h)
    (hwf : data.length = 4 * (w * h)) :
    ∀ q ∈ (samplePoints w h).map (fun p => ((p.1 : ℤ), (p.2 : ℤ))),
      samplePtOk data w h q = true := by
  intro q hq
  simp only [List.mem_map] at hq
  obtain ⟨p, hp, rfl⟩ := hq
  rw [samplePtOk_of_wf hwf, decide_eq_true_iff]
  dsimp only
  have hcoord : p.1 < w ∧ p.2 < h := by
    simp only [samplePoints, List.mem_cons, List.not_mem_nil, or_false] at hp
    rcases hp with rfl | rfl | rfl | rfl | rfl | rfl | rfl | rfl <;>
      exact ⟨by dsimp only; omega, by dsimp only; omega⟩
  refine ⟨Int.natCast_nonneg _, ?_, Int.natCast_nonneg _, ?_⟩
  · exact_mod_cast hcoord.1
  · exact_mod_cast hcoord.2

/-- At each of the eight fixed sample points the byte index used by
`sampleAverageColor` coincides with the clamped `R_OFFSET` of the inline
sampler. -/
lemma cast_idx_eq_offset {w h : ℕ} (hw : 1 ≤ w) (hh : 1 ≤ h) :
    ∀ p ∈ samplePoints w h,
      samplePtIdx w ((p.1 : ℤ), (p.2 : ℤ)) = sampleOffset w h p := by
  intro p hp
  have e1 : min (w / 2) (w - 1) = w / 2 := Nat.min_eq_left (by omega)
  have e2 : min (h / 2) (h - 1) = h / 2 := Nat.min_eq_left (by omega)
  simp only [samplePoints, List.mem_cons, List.not_mem_nil, or_false] at hp
  rcases hp with rfl | rfl | rfl | rfl | rfl | rfl | rfl | rfl <;>
    simp only [samplePtIdx, sampleOffset, Int.toNat_natCast, Nat.zero_min, Nat.min_self, e1, e2]

/-- On a well-formed nonempty buffer, `sampleAverageColor` over the cast
fixed sample set returns the rounded means of the inline channel sums. -/
lemma sampleAverageColor_samplePoints {w h : ℕ} {data : List ℕ} (hw : 1 ≤ w) (hh : 1 ≤ h)
    (hwf : data.length = 4 * (w * h)) :
    sampleAverageColor data w h ((samplePoints w h).map (fun p => ((p.1 : ℤ), (p.2 : ℤ)))) =
      some ⟨jsRound (inlineSum data w h 0) 8, jsRound (inlineSum data w h 1) 8,
        jsRound (inlineSum data w h 2) 8⟩ := by
  have hfull := List.filter_eq_self.mpr (samplePts_cast_ok hw hh hwf)
  have hsum : ∀ channel : ℕ,
      (((samplePoints w h).map (fun p => ((p.1 : ℤ), (p.2 : ℤ)))).map
          (fun q => data.getD (samplePtIdx w q + channel) 0)).sum =
        inlineSum data w h channel := by
    intro channel
    rw [inlineSum, inlineValidPoints_all hw hh hwf, List.map_map]
    congr 1
    apply List.map_congr_left
    intro p hp
    simp only [Function.comp]
    rw [cast_idx_eq_offset hw hh p hp]
  have hlen : (((samplePoints w h).map (fun p => ((p.1 : ℤ), (p.2 : ℤ))))).length = 8 := by
    simp [samplePoints]
  rw [sampleAverageColor]
  rw [hfull, hlen]
  rw [if_neg (by omega)]
  have hs0 := hsum 0
  have hs1 := hsum 1
  have hs2 := hsum 2
  simp only [Nat.add_zero] at hs0
  rw [hs0, hs1, hs2]

/-- `Math.round (s / 8)` is exact division when 8 divides `s`. -/
lemma jsRound_of_dvd {s : ℕ} (hdvd : 8 ∣ s) : jsRound s 8 = s / 8 := by
  unfold jsRound
  omega

/-- When no pixel sits at squared distance exactly 2025 from the integer
average, the strict inline test and the non-strict utility test classify
every pixel identically, so the two data transforms produce the same alpha
channel. -/
lemma matchData_agree (u0 u1 u2 : ℤ) :
    ∀ data : List ℕ,
      (∀ c ∈ pixelTriples data,
        calculateRgbDistanceSq ⟨(c.1 : ℤ), (c.2.1 : ℤ), (c.2.2 : ℤ)⟩ ⟨u0, u1, u2⟩ ≠ 2025) →
      alphaChannel (inlineMatchData (8 * u0) (8 * u1) (8 * u2) 8 data) =
        alphaChannel (manipulateAlphaByColorMatch ⟨u0, u1, u2⟩ 45 data)
  | r :: g :: b :: a :: rest => fun hne => by
      have hpix : calculateRgbDistanceSq ⟨(r : ℤ), (g : ℤ), (b : ℤ)⟩ ⟨u0, u1, u2⟩ ≠ 2025 :=
        hne (r, g, b) (by simp [pixelTriples])
      have hrec := matchData_agree u0 u1 u2 rest
        (fun c hc => hne c (by simp [pixelTriples, hc]))
      have hiff : inlineMatches (8 * u0) (8 * u1) (8 * u2) 8 r g b =
          decide (0 ≤ (45 : ℤ) ∧
            calculateRgbDistanceSq ⟨(r : ℤ), (g : ℤ), (b : ℤ)⟩ ⟨u0, u1, u2⟩ ≤ 45 ^ 2) := by
        rw [inlineMatches_scaled, decide_eq_decide]
        have hsq : (45 : ℤ) ^ 2 = 2025 := by norm_num
        rw [hsq]
        constructor
        · intro hlt
          exact ⟨by norm_num, by omega⟩
        · rintro ⟨-, hle⟩
          omega
      simp only [inlineMatchData, manipulateAlphaByColorMatch, alphaChannel, hiff, hrec,
        List.cons.injEq, and_true]
  | [] => fun _ => rfl
  | [_] => fun _ => rfl
  | [_, _] => fun _ => rfl
  | [_, _, _] => fun _ => rfl

/-- Claim C10, counterexample to the claim as stated: on the 2×1 buffer with
pixels (0,0,0) and (0,0,72), the estimated background is (0,0,45) under both
samplers, the first pixel sits at distance exactly 45 — the tolerance — and
the inline strict test keeps its alpha at 255 while the utility non-strict
test clears it: the two alpha channels differ. -/
theorem pipelines_agree_cex :
    processDecoded 2 1 [0, 0, 0, 255, 0, 0, 72, 255] =
      .ok ([10, 20, 30, 95, 100], [0, 0, 0, 255, 0, 0, 72, 0]) ∧
      alphaChannel [0, 0, 0, 255, 0, 0, 72, 0] = [255, 0] ∧
      alphaChannel (utilityPipeline [0, 0, 0, 255, 0, 0, 72, 255] 2 1) = [0, 0] ∧
      alphaChannel [0, 0, 0, 255, 0, 0, 72, 0] ≠
        alphaChannel (utilityPipeline [0, 0, 0, 255, 0, 0, 72, 255] 2 1) := by
  refine ⟨by decide, by decide, by decide, by decide⟩

/-- Claim C10 (amended: the two implementations agree on buffers where the
eight-sample channel sums are divisible by 8 — so the inline unrounded
average and the utility rounded average coincide — and no pixel sits at
squared distance exactly 2025 from that average; the counterexample shows
they are not identical in general): on every such well-formed nonempty
buffer within the iteration ceiling, the inline loop of removeBackground,
run with its own sampled average, completes and produces exactly the alpha
channel of `sampleAverageColor` followed by `manipulateAlphaByColorMatch`
at tolerance 45 on the same fixed sample set. -/
theorem pipelines_agree_spec :
    ∀ (w h : ℕ) (data : List ℕ),
      1 ≤ w → 1 ≤ h → data.length = 4 * (w * h) → w * h ≤ MAX_ITERATIONS →
      8 ∣ inlineSum data w h 0 → 8 ∣ inlineSum data w h 1 → 8 ∣ inlineSum data w h 2 →
      (∀ c ∈ pixelTriples data,
        calculateRgbDistanceSq ⟨(c.1 : ℤ), (c.2.1 : ℤ), (c.2.2 : ℤ)⟩
          ⟨((inlineSum data w h 0 / 8 : ℕ) : ℤ), ((inlineSum data w h 1 / 8 : ℕ) : ℤ),
            ((inlineSum data w h 2 / 8 : ℕ) : ℤ)⟩ ≠ 2025) →
      inlineAverage data w h =
        ((inlineSum data w h 0 : ℤ), (inlineSum data w h 1 : ℤ),
          (inlineSum data w h 2 : ℤ), 8) ∧
      (∃ events,
        matchLoop (inlineSum data w h 0 : ℤ) (inlineSum data w h 1 : ℤ)
            (inlineSum data w h 2 : ℤ) 8 data.length (data.length / 4) 0 30 data =
          .ok (inlineMatchData (inlineSum data w h 0 : ℤ) (inlineSum data w h 1 : ℤ)
            (inlineSum data w h 2 : ℤ) 8 data, events)) ∧
      alphaChannel (inlineMatchData (inlineSum data w h 0 : ℤ) (inlineSum data w h 1 : ℤ)
          (inlineSum data w h 2 : ℤ) 8 data) =
        alphaChannel (utilityPipeline data w h) := by
  intro w h data hw hh hwf hbudget hd0 hd1 hd2 hne
  have hcast : ∀ channel : ℕ, 8 ∣ inlineSum data w h channel →
      (inlineSum data w h channel : ℤ) = 8 * ((inlineSum data w h channel / 8 : ℕ) : ℤ) := by
    intro channel hdvd
    obtain ⟨k, hk⟩ := hdvd
    rw [hk]
    have hdiv : 8 * k / 8 = k := by omega
    rw [hdiv]
    push_cast
    ring
  refine ⟨inlineAverage_eq hw hh hwf, ?_, ?_⟩
  · exact matchLoop_ok _ _ _ _ _ _ data 0 30 (by omega)
  · rw [utilityPipeline, sampleAverageColor_samplePoints hw hh hwf]
    rw [jsRound_of_dvd hd0, jsRound_of_dvd hd1, jsRound_of_dvd hd2]
    rw [hcast 0 hd0, hcast 1 hd1, hcast 2 hd2]
    exact matchData_agree _ _ _ data hne

/-- Claim C10, witness: on the 1×1 buffer with pixel (10,20,30) both
pipelines clear the single pixel's alpha, and the inline loop completes with
that result. -/
theorem pipelines_agree_spec_witness :
    inlineAverage [10, 20, 30, 255] 1 1 =
      ((inlineSum [10, 20, 30, 255] 1 1 0 : ℤ), (inlineSum [10, 20, 30, 255] 1 1 1 : ℤ),
        (inlineSum [10, 20, 30, 255] 1 1 2 : ℤ), 8) ∧
      (∃ events,
        matchLoop (inlineSum [10, 20, 30, 255] 1 1 0 : ℤ)
            (inlineSum [10, 20, 30, 255] 1 1 1 : ℤ) (inlineSum [10, 20, 30, 255] 1 1 2 : ℤ) 8
            (List.length [10, 20, 30, 255]) (List.length [10, 20, 30, 255] / 4) 0 30
            [10, 20, 30, 255] =
          .ok (inlineMatchData (inlineSum [10, 20, 30, 255] 1 1 0 : ℤ)
            (inlineSum [10, 20, 30, 255] 1 1 1 : ℤ) (inlineSum [10, 20, 30, 255] 1 1 2 : ℤ) 8
            [10, 20, 30, 255], events)) ∧
      alphaChannel (inlineMatchData (inlineSum [10, 20, 30, 255] 1 1 0 : ℤ)
          (inlineSum [10, 20, 30, 255] 1 1 1 : ℤ) (inlineSum [10, 20, 30, 255] 1 1 2 : ℤ) 8
          [10, 20, 30, 255]) =
        alphaChannel (utilityPipeline [10, 20, 30, 255] 1 1) :=
  pipelines_agree_spec 1 1 [10, 20, 30, 255] (by decide) (by decide) (by decide) (by decide)
    (by decide) (by decide) (by decide) (by decide)

end BgRemover
